import Mathlib

/-!
Verification of the pagecrawl crawler against its specification.

The development is a shallow embedding of src/main.go.  Go byte slices are
modelled as lists of naturals, Go strings as Lean strings.  The library
helpers strings.ToLower and strings.Split (always called here with a
one-character separator) are modelled by goToLower and goSplit below,
working on the underlying character data; the inputs of interest are ASCII,
where Char.toLower agrees with the Go function.  External effects (the HTTP
client, the file system, the input scanner) are modelled as explicit
oracle parameters or event lists, so every function stays executable.
-/

namespace Pagecrawl

/-- Byte buffers of Go type []byte, modelled as lists of naturals. -/
abbrev Bytes := List Nat

/-- Model of strings.ToLower: lowercase every character. -/
def goToLower (s : String) : String := String.mk (s.data.map Char.toLower)

/-- Model of strings.Split with a one-character separator. -/
def goSplit (sep : Char) (s : String) : List String :=
  (s.data.splitOn sep).map String.mk

/-- The fixed User-Agent literal of main.go line 46. -/
def userAgent : String := "pagecrawl; 0.1.0"

/-- One attribute of a parsed HTML node (html.Attribute), a key and a value. -/
structure Attribute where
  key : String
  val : String
deriving DecidableEq, Repr

/-- A parsed HTML node (html.Node): its attribute list and its children,
the chain doc.FirstChild, doc.FirstChild.NextSibling, and so on, collected
into one list. -/
inductive Node where
  | node (attr : List Attribute) (children : List Node)
deriving Repr

mutual

/-- The crawl function of main.go lines 80 to 91: append the value of every
attribute of this node whose lowercased key is href, then walk the children
in sibling order, appending each recursive result to the buffer. -/
def crawl : Node → List String
  | .node attr children =>
    crawlChildren children
      (attr.foldl (fun buf a => if goToLower a.key = "href" then buf ++ [a.val] else buf) [])

/-- The loop over next := doc.FirstChild; next != nil; next = next.NextSibling
in crawl, with buf as the accumulator. -/
def crawlChildren : List Node → List String → List String
  | [], buf => buf
  | next :: rest, buf => crawlChildren rest (buf ++ crawl next)

end

/-- The href attribute values a single node contributes, in attribute order:
value of every attribute whose lowercased key is href. -/
def nodeHrefs : Node → List String
  | .node attr _ =>
    attr.filterMap (fun a => if goToLower a.key = "href" then some a.val else none)

mutual

/-- Pre-order traversal of a node: the node itself, then the traversal of
each child in document order. -/
def preorder : Node → List Node
  | .node attr children => .node attr children :: preorderList children

/-- Pre-order traversal of a sibling list, in order. -/
def preorderList : List Node → List Node
  | [] => []
  | n :: rest => preorder n ++ preorderList rest

end

theorem hrefFold_eq (attr : List Attribute) (acc : List String) :
    attr.foldl (fun buf a => if goToLower a.key = "href" then buf ++ [a.val] else buf) acc
      = acc ++ attr.filterMap (fun a => if goToLower a.key = "href" then some a.val else none) := by
  induction attr generalizing acc with
  | nil => simp
  | cons a rest ih =>
    by_cases h : goToLower a.key = "href" <;> simp [List.foldl, h, ih]

mutual

theorem crawl_eq_flat : ∀ t : Node,
    crawl t = ((preorder t).map nodeHrefs).flatten
  | .node attr children => by
    rw [crawl, preorder, crawlChildren_eq_flat, hrefFold_eq]
    simp [nodeHrefs]

theorem crawlChildren_eq_flat : ∀ (ns : List Node) (buf : List String),
    crawlChildren ns buf = buf ++ ((preorderList ns).map nodeHrefs).flatten
  | [], buf => by simp [crawlChildren, preorderList]
  | n :: rest, buf => by
    rw [crawlChildren, preorderList, crawlChildren_eq_flat rest, crawl_eq_flat n]
    simp [List.append_assoc]

end

/-- Claim C3: for every parsed HTML document tree, crawl returns exactly the
values of the attributes whose lowercased name is href, one entry per such
attribute, values unmodified, in pre-order depth-first traversal order
(own attributes first, then the children in sibling order); in particular
the output length is the total count of such attributes in the tree. -/
theorem crawl_preorder_hrefs (t : Node) :
    crawl t = ((preorder t).map nodeHrefs).flatten
      ∧ (crawl t).length = (((preorder t).map nodeHrefs).map List.length).sum := by
  refine ⟨crawl_eq_flat t, ?_⟩
  rw [crawl_eq_flat t]
  simp [List.length_flatten]

/-- The asset record of main.go lines 53 to 58: access time (modelled as an
abstract natural timestamp), the input address, the optional raw body, and
the extracted references. -/
structure Asset where
  accessed : Nat
  address : String
  data : Bytes
  references : List String
deriving DecidableEq, Repr

/-- Asset construction in fetch, main.go lines 117 to 124: the literal is
built without Data, and Data is assigned the raw response only when the
run-wide shouldCache flag is set. -/
def buildAsset (shouldCache : Bool) (now : Nat) (addr : String)
    (rawResponse : Bytes) (refs : List String) : Asset :=
  let a : Asset := { accessed := now, address := addr, data := [], references := refs }
  if shouldCache then { a with data := rawResponse } else a

/-- The asset a successful fetch of address addr assembles, given the fetch
start time, the raw body, and the parse oracle standing for html.Parse
(main.go lines 115 to 124): references come from crawl on the parsed tree. -/
def fetchedAsset (shouldCache : Bool) (parse : Bytes → Node)
    (now : Nat) (addr : String) (raw : Bytes) : Asset :=
  buildAsset shouldCache now addr raw (crawl (parse raw))

/-- One run of the program assembles its assets with the single global
shouldCache value fixed at startup (main.go line 49 and lines 173 to 175):
every fetch that reaches the construction stage uses the same flag.  Each
triple lists fetch start time, address, and raw response body. -/
def runAssets (shouldCache : Bool) (parse : Bytes → Node)
    (fetches : List (Nat × String × Bytes)) : List Asset :=
  fetches.map (fun f => fetchedAsset shouldCache parse f.1 f.2.1 f.2.2)

/-- Claim C5: for every fetch that reaches the asset-construction stage, the
data field is empty when the run-wide cache flag is false and equals the raw
response body when it is true; one flag value governs every asset of a run. -/
theorem asset_data_cache_flag (shouldCache : Bool) (parse : Bytes → Node)
    (fetches : List (Nat × String × Bytes)) :
    ((runAssets shouldCache parse fetches).map Asset.data)
        = fetches.map (fun f => if shouldCache then f.2.2 else [])
      ∧ (∀ now addr raw refs, (buildAsset false now addr raw refs).data = []
          ∧ (buildAsset true now addr raw refs).data = raw) := by
  constructor
  · have hfun : (Asset.data ∘ fun f : Nat × String × Bytes =>
        fetchedAsset shouldCache parse f.1 f.2.1 f.2.2)
          = fun f : Nat × String × Bytes => if shouldCache then f.2.2 else [] := by
      funext f
      cases shouldCache <;> simp [fetchedAsset, buildAsset]
    rw [runAssets, List.map_map, hfun]
  · intro now addr raw refs
    exact ⟨rfl, rfl⟩

/-- An outbound HTTP request as the model sees it: method, target URL, body
bytes, and the added headers in order. -/
structure HttpRequest where
  method : String
  url : String
  body : Bytes
  headers : List (String × String)
deriving DecidableEq, Repr

/-- The part of an HTTP response the code could have looked at; the status
code is carried so that theorems can state that it is never inspected. -/
structure HttpResponse where
  status : Nat
  body : Bytes
deriving DecidableEq, Repr

/-- Outcome of one httpOutput.Write call: the returned count, the returned
error, and the request handed to client.Do, when any was. -/
structure WriteOutcome where
  n : Nat
  err : Option String
  requestSent : Option HttpRequest
deriving DecidableEq, Repr

/-- The request httpOutput.Write hands to client.Do (main.go lines 66 to 72):
http.NewRequest with http.MethodGet, the sink target URL and the buffer as
body, then the From header from configuration and the fixed User-Agent. -/
def mkSinkRequest (fromHeader : String) (sendTo : String) (p : Bytes) : HttpRequest :=
  { method := "GET", url := sendTo, body := p,
    headers := [("From", fromHeader), ("User-Agent", userAgent)] }

/-- httpOutput.Write of main.go lines 64 to 78.  newReqErr is the oracle for
http.NewRequest failing on the target URL; doReq is the oracle for
client.Do.  On construction failure the error is logged and (0, err) is
returned with no request issued; on transport failure (0, err); otherwise
the full length of p with no error.  The response value is discarded. -/
def httpOutputWrite (fromHeader : String) (newReqErr : String → Option String)
    (doReq : HttpRequest → Except String HttpResponse)
    (sendTo : String) (p : Bytes) : WriteOutcome :=
  match newReqErr sendTo with
  | some e => { n := 0, err := some e, requestSent := none }
  | none =>
    let request := mkSinkRequest fromHeader sendTo p
    match doReq request with
    | .error e => { n := 0, err := some e, requestSent := some request }
    | .ok _ => { n := p.length, err := none, requestSent := some request }

/-- Claim C2 counterexample: a write whose construction and transport both
succeed hands client.Do a request whose method is GET, not POST, so the
claim that every sink write performs an HTTP POST fails on the code
(main.go line 66 passes http.MethodGet to http.NewRequest). -/
theorem httpOutput_write_method_cex :
    (httpOutputWrite "" (fun _ => none) (fun _ => Except.ok { status := 200, body := [] })
          "http://collector" [104, 105]).requestSent
        = some (mkSinkRequest "" "http://collector" [104, 105])
      ∧ (mkSinkRequest "" "http://collector" [104, 105]).method = "GET"
      ∧ "GET" ≠ "POST" :=
  ⟨rfl, rfl, by decide⟩

/-- Claim C2 as amended: for every byte buffer p, the HTTP sink write
performs an HTTP GET request (not POST) to the target URL with p as the
request body, and reports success, returning the full byte count, exactly
when the request completed without transport error; the response value,
including its status code, is never inspected (the success result is the
same for every response the transport returns). -/
theorem httpOutput_write_get (fromH sendTo : String) (p : Bytes)
    (newReqErr : String → Option String)
    (doReq : HttpRequest → Except String HttpResponse)
    (h : newReqErr sendTo = none) :
    (httpOutputWrite fromH newReqErr doReq sendTo p).requestSent
        = some (mkSinkRequest fromH sendTo p)
      ∧ (mkSinkRequest fromH sendTo p).method = "GET"
      ∧ (mkSinkRequest fromH sendTo p).body = p
      ∧ (∀ resp, doReq (mkSinkRequest fromH sendTo p) = Except.ok resp →
          httpOutputWrite fromH newReqErr doReq sendTo p
            = { n := p.length, err := none, requestSent := some (mkSinkRequest fromH sendTo p) })
      ∧ (∀ e, doReq (mkSinkRequest fromH sendTo p) = Except.error e →
          httpOutputWrite fromH newReqErr doReq sendTo p
            = { n := 0, err := some e, requestSent := some (mkSinkRequest fromH sendTo p) }) := by
  refine ⟨?_, rfl, rfl, ?_, ?_⟩
  · unfold httpOutputWrite
    rw [h]
    cases hdo : doReq (mkSinkRequest fromH sendTo p) <;> simp [hdo]
  · intro resp hresp
    unfold httpOutputWrite
    rw [h]
    simp [hresp]
  · intro e he
    unfold httpOutputWrite
    rw [h]
    simp [he]

/-- Witness for the amended claim C2 at a concrete sink and buffer. -/
theorem httpOutput_write_get_witness :
    (httpOutputWrite "me" (fun _ => none) (fun _ => Except.ok { status := 200, body := [7] })
          "http://t" [1, 2]).requestSent
      = some (mkSinkRequest "me" "http://t" [1, 2]) :=
  (httpOutput_write_get "me" "http://t" [1, 2] (fun _ => none)
      (fun _ => Except.ok { status := 200, body := [7] }) rfl).1

/-- Claim C10: a successful sink write returns the pair of the buffer
length and no error; a failing write returns zero and the error; when
request construction fails no request is handed to the transport at all. -/
theorem httpOutput_write_results (fromH sendTo : String) (p : Bytes)
    (newReqErr : String → Option String)
    (doReq : HttpRequest → Except String HttpResponse) :
    (∀ e, newReqErr sendTo = some e →
        httpOutputWrite fromH newReqErr doReq sendTo p
          = { n := 0, err := some e, requestSent := none })
      ∧ (newReqErr sendTo = none →
          ∀ resp, doReq (mkSinkRequest fromH sendTo p) = Except.ok resp →
            httpOutputWrite fromH newReqErr doReq sendTo p
              = { n := p.length, err := none, requestSent := some (mkSinkRequest fromH sendTo p) })
      ∧ (newReqErr sendTo = none →
          ∀ e, doReq (mkSinkRequest fromH sendTo p) = Except.error e →
            httpOutputWrite fromH newReqErr doReq sendTo p
              = { n := 0, err := some e, requestSent := some (mkSinkRequest fromH sendTo p) }) := by
  refine ⟨?_, ?_, ?_⟩
  · intro e he
    unfold httpOutputWrite
    rw [he]
  · intro h resp hresp
    unfold httpOutputWrite
    rw [h]
    simp [hresp]
  · intro h e he
    unfold httpOutputWrite
    rw [h]
    simp [he]

/-- Witness for claim C10: with a construction failure the result is zero
with the error and no request reaches the transport. -/
theorem httpOutput_write_results_witness :
    httpOutputWrite "" (fun _ => some "bad url") (fun _ => Except.ok { status := 200, body := [] })
        "%" [1]
      = { n := 0, err := some "bad url", requestSent := none } :=
  (httpOutput_write_results "" "%" [1] (fun _ => some "bad url")
      (fun _ => Except.ok { status := 200, body := [] })).1 "bad url" rfl

/-- The output loop of fetch, main.go lines 126 to 132: try each sink in
registration order on the same serialized bytes; on the first failing write
log the error and return at once.  A sink is modelled by its behaviour on a
byte buffer.  The result is the number of sinks whose write was invoked and
the logged error, when one occurred. -/
def deliver (bytes : Bytes) : List (Bytes → Except String Nat) → Nat × Option String
  | [] => (0, none)
  | s :: rest =>
    match s bytes with
    | .ok _ => ((deliver bytes rest).1 + 1, (deliver bytes rest).2)
    | .error e => (1, some e)

/-- How one fetch task ends.  panicked models a runtime panic that crashes
the whole process; abortedFetch and abortedRead are the logged early
returns of main.go lines 105 to 114; completed carries the constructed
asset, the number of sink writes invoked, and the logged write error. -/
inductive FetchOutcome where
  | panicked
  | abortedFetch
  | abortedRead
  | completed (a : Asset) (writesAttempted : Nat) (writeErr : Option String)
deriving DecidableEq, Repr

/-- The fetch function of main.go lines 93 to 134, with the external world
as oracles: newReqErr is the error http.NewRequest returns for the address,
when any; doResult stands for client.Do; readResult for io.ReadAll of the
body; parse for html.Parse, which reports no failure the code looks at;
encode for json.Marshal, whose error the code ignores.  When
http.NewRequest fails the code logs the error but is missing a return
(main.go lines 99 to 101): it then calls request.Header.Add on the nil
request pointer that http.NewRequest returned together with the error, a
nil dereference that panics, and a panic in a goroutine crashes the whole
process, which the panicked outcome records.  On a transport or body-read
error the task logs and returns with no asset and no sink write.
Otherwise the asset is built, serialized once, and handed to the sinks in
registration order until the first failure. -/
def fetchRun (shouldCache : Bool) (encode : Asset → Bytes) (parse : Bytes → Node)
    (now : Nat) (addr : String) (newReqErr : Option String)
    (doResult : Except String Unit) (readResult : Except String Bytes)
    (sinks : List (Bytes → Except String Nat)) : FetchOutcome :=
  match newReqErr with
  | some _ => .panicked
  | none =>
    match doResult with
    | .error _ => .abortedFetch
    | .ok _ =>
      match readResult with
      | .error _ => .abortedRead
      | .ok raw =>
        let a := fetchedAsset shouldCache parse now addr raw
        let rawAssetJson := encode a
        .completed a (deliver rawAssetJson sinks).1 (deliver rawAssetJson sinks).2

/-- Claim C1 (code bug): for the address consisting of one percent sign,
http.NewRequest fails; fetch logs the error but, missing a return, goes on
to dereference the nil request and panics, crashing the process.  No asset
is constructed and no sink write is invoked, as the claim states, but the
claimed return-without-crashing does not happen. -/
theorem fetch_reqfail_panics :
    fetchRun false (fun _ => []) (fun _ => Node.node [] []) 0 "%"
        (some "parse %: invalid URL escape") (Except.ok ()) (Except.ok []) []
      = FetchOutcome.panicked := rfl

theorem deliver_all_ok (bytes : Bytes) (sinks : List (Bytes → Except String Nat))
    (h : ∀ s ∈ sinks, ∃ n, s bytes = Except.ok n) :
    deliver bytes sinks = (sinks.length, none) := by
  induction sinks with
  | nil => rfl
  | cons s rest ih =>
    obtain ⟨n, hn⟩ := h s (List.mem_cons_self s rest)
    rw [deliver, hn, ih (fun t ht => h t (List.mem_cons_of_mem s ht))]
    simp

theorem deliver_stops_at_failure (bytes : Bytes)
    (pre post : List (Bytes → Except String Nat)) (bad : Bytes → Except String Nat) (e : String)
    (hpre : ∀ s ∈ pre, ∃ n, s bytes = Except.ok n) (hbad : bad bytes = Except.error e) :
    deliver bytes (pre ++ bad :: post) = (pre.length + 1, some e) := by
  induction pre with
  | nil =>
    rw [List.nil_append, deliver, hbad]
    rfl
  | cons s rest ih =>
    obtain ⟨n, hn⟩ := hpre s (List.mem_cons_self s rest)
    rw [List.cons_append, deliver, hn,
      ih (fun t ht => hpre t (List.mem_cons_of_mem s ht))]
    simp [Nat.add_comm]

/-- Claim C6: a fetch that reaches the delivery stage hands the same
serialized asset bytes to the sinks in registration order; when every sink
accepts, all of them are written; when the first failure happens at sink i,
the error is recorded and no later sink receives the bytes, while the fetch
task still completes normally. -/
theorem fetch_sink_delivery (shouldCache : Bool) (encode : Asset → Bytes)
    (parse : Bytes → Node) (now : Nat) (addr : String) (raw : Bytes)
    (pre post : List (Bytes → Except String Nat)) (bad : Bytes → Except String Nat) (e : String)
    (hpre : ∀ s ∈ pre, ∃ n, s (encode (fetchedAsset shouldCache parse now addr raw)) = Except.ok n)
    (hbad : bad (encode (fetchedAsset shouldCache parse now addr raw)) = Except.error e) :
    fetchRun shouldCache encode parse now addr none (Except.ok ()) (Except.ok raw)
        (pre ++ bad :: post)
      = FetchOutcome.completed (fetchedAsset shouldCache parse now addr raw)
          (pre.length + 1) (some e)
    ∧ ∀ sinks : List (Bytes → Except String Nat),
        (∀ s ∈ sinks, ∃ n, s (encode (fetchedAsset shouldCache parse now addr raw)) = Except.ok n) →
          fetchRun shouldCache encode parse now addr none (Except.ok ()) (Except.ok raw) sinks
            = FetchOutcome.completed (fetchedAsset shouldCache parse now addr raw)
                sinks.length none := by
  constructor
  · rw [fetchRun]
    rw [deliver_stops_at_failure _ _ _ _ _ hpre hbad]
  · intro sinks hsinks
    rw [fetchRun]
    rw [deliver_all_ok _ _ hsinks]

/-- Witness for claim C6: two file-like sinks and one more after them; the
first accepts, the second fails, the third is never invoked, and the fetch
still completes with the error recorded. -/
theorem fetch_sink_delivery_witness :
    fetchRun false (fun _ => [9]) (fun _ => Node.node [] []) 0 "http://a" none
        (Except.ok ()) (Except.ok [])
        ([fun _ => Except.ok 1] ++ (fun _ => Except.error "disk full") :: [fun _ => Except.ok 2])
      = FetchOutcome.completed (fetchedAsset false (fun _ => Node.node [] []) 0 "http://a" [])
          2 (some "disk full") :=
  (fetch_sink_delivery false (fun _ => [9]) (fun _ => Node.node [] []) 0 "http://a" []
      [fun _ => Except.ok 1] [fun _ => Except.ok 2] (fun _ => Except.error "disk full")
      "disk full"
      (by
        intro s hs
        rw [List.mem_singleton] at hs
        subst hs
        exact ⟨1, rfl⟩)
      rfl).1

/-- One iteration of the input loop of main.go lines 209 to 223 as the
scanner presents it: line l is an iteration where input.Scan returned true,
input.Err was nil and input.Text was l; fail isEOF is an iteration where
input.Scan returned true and input.Err was non-nil, with isEOF recording
whether the error equalled io.EOF.  The end of the event list is the
iteration where input.Scan returned false and the loop stopped. -/
inductive ScanEvent where
  | line (s : String)
  | fail (isEOF : Bool)
deriving DecidableEq, Repr

/-- The lines the input loop dispatches a fetch task for, in order: a
non-EOF read error is logged and skipped, an EOF read error breaks, the
quit sentinel breaks, and every other line starts one task
(main.go lines 209 to 223). -/
def dispatched : List ScanEvent → List String
  | [] => []
  | .fail true :: _ => []
  | .fail false :: rest => dispatched rest
  | .line l :: rest => if l = "quit" then [] else l :: dispatched rest

/-- How many scan-error log lines the input loop emits: one per non-EOF
read error reached before the loop breaks (main.go line 214). -/
def errorsLogged : List ScanEvent → Nat
  | [] => 0
  | .fail true :: _ => 0
  | .fail false :: rest => errorsLogged rest + 1
  | .line l :: rest => if l = "quit" then 0 else errorsLogged rest

theorem dispatched_lines_front (pre : List String) (rest : List ScanEvent)
    (hq : ∀ l ∈ pre, l ≠ "quit") :
    dispatched (pre.map ScanEvent.line ++ rest) = pre ++ dispatched rest := by
  induction pre with
  | nil => rfl
  | cons l tl ih =>
    rw [List.map_cons, List.cons_append, dispatched,
      if_neg (hq l (List.mem_cons_self l tl)),
      ih (fun t ht => hq t (List.mem_cons_of_mem l ht))]
    rfl

theorem errorsLogged_lines_front (pre : List String) (rest : List ScanEvent)
    (hq : ∀ l ∈ pre, l ≠ "quit") :
    errorsLogged (pre.map ScanEvent.line ++ rest) = errorsLogged rest := by
  induction pre with
  | nil => rfl
  | cons l tl ih =>
    rw [List.map_cons, List.cons_append, errorsLogged,
      if_neg (hq l (List.mem_cons_self l tl)),
      ih (fun t ht => hq t (List.mem_cons_of_mem l ht))]

/-- Claim C7: when one line read fails with a non-EOF error, the loop logs
the error, dispatches no task for that iteration, and goes on reading: the
lines before the failure and whatever the loop dispatches after it are all
started, and the error adds exactly one log line. -/
theorem readerror_skip_continue (pre : List String) (post : List ScanEvent)
    (hq : ∀ l ∈ pre, l ≠ "quit") :
    dispatched (pre.map ScanEvent.line ++ ScanEvent.fail false :: post)
        = pre ++ dispatched post
      ∧ errorsLogged (pre.map ScanEvent.line ++ ScanEvent.fail false :: post)
          = errorsLogged post + 1 := by
  constructor
  · rw [dispatched_lines_front pre _ hq]
    rfl
  · rw [errorsLogged_lines_front pre _ hq]
    rfl

/-- Witness for claim C7: one good line, a failed read, another good line;
both lines are dispatched and one error is logged. -/
theorem readerror_skip_continue_witness :
    (∀ l ∈ ["http://a"], l ≠ "quit")
      ∧ dispatched [ScanEvent.line "http://a", ScanEvent.fail false, ScanEvent.line "http://b"]
          = ["http://a", "http://b"]
      ∧ errorsLogged [ScanEvent.line "http://a", ScanEvent.fail false, ScanEvent.line "http://b"]
          = 1 := by
  refine ⟨by decide, ?_, ?_⟩
  · exact (readerror_skip_continue ["http://a"] [ScanEvent.line "http://b"] (by decide)).1
  · exact (readerror_skip_continue ["http://a"] [ScanEvent.line "http://b"] (by decide)).2

/-- The phase of the pipeline coordinator: reading the input loop, draining
at group.Wait, or terminated after group.Wait returned. -/
inductive Phase where
  | reading
  | draining
  | terminated
deriving DecidableEq, Repr

/-- A coordinator state: the scanner iterations still to come, the lines a
fetch task was started for in order, the count of started tasks that have
not finished (the WaitGroup counter), and the phase. -/
structure CoordState where
  events : List ScanEvent
  started : List String
  pending : Nat
  phase : Phase
deriving DecidableEq, Repr

/-- Small-step transitions of main with its concurrent fetch tasks
(main.go lines 207 to 224).  The loop steps read one scanner iteration:
the loop ends, an EOF error breaks, a non-EOF error is logged and skipped,
the quit sentinel breaks, and any other line does group.Add and go fetch.
A running task may finish (group.Done) at any time in any phase, and
group.Wait returns only once the counter is zero. -/
inductive CoordStep : CoordState → CoordState → Prop where
  | scanEnd (st : List String) (p : Nat) :
      CoordStep ⟨[], st, p, .reading⟩ ⟨[], st, p, .draining⟩
  | scanEOF (r : List ScanEvent) (st : List String) (p : Nat) :
      CoordStep ⟨.fail true :: r, st, p, .reading⟩ ⟨r, st, p, .draining⟩
  | scanErr (r : List ScanEvent) (st : List String) (p : Nat) :
      CoordStep ⟨.fail false :: r, st, p, .reading⟩ ⟨r, st, p, .reading⟩
  | scanQuit (r : List ScanEvent) (st : List String) (p : Nat) :
      CoordStep ⟨.line "quit" :: r, st, p, .reading⟩ ⟨r, st, p, .draining⟩
  | scanLine (l : String) (r : List ScanEvent) (st : List String) (p : Nat)
      (h : l ≠ "quit") :
      CoordStep ⟨.line l :: r, st, p, .reading⟩ ⟨r, st ++ [l], p + 1, .reading⟩
  | taskDone (ev : List ScanEvent) (st : List String) (p : Nat) (ph : Phase) :
      CoordStep ⟨ev, st, p + 1, ph⟩ ⟨ev, st, p, ph⟩
  | finishWait (ev : List ScanEvent) (st : List String) :
      CoordStep ⟨ev, st, 0, .draining⟩ ⟨ev, st, 0, .terminated⟩

/-- The start state on a given input: nothing started, counter zero. -/
def initState (evs : List ScanEvent) : CoordState :=
  ⟨evs, [], 0, .reading⟩

/-- Coordinator invariant: while reading, the started lines followed by
what the remaining events will dispatch equal what the whole input
dispatches; after reading the started lines are final; and the process is
terminated only with a zero task counter. -/
def CoordInv (evs0 : List ScanEvent) (s : CoordState) : Prop :=
  (s.phase = .reading → s.started ++ dispatched s.events = dispatched evs0)
    ∧ (s.phase ≠ .reading → s.started = dispatched evs0)
    ∧ (s.phase = .terminated → s.pending = 0)

theorem coordInv_init (evs0 : List ScanEvent) : CoordInv evs0 (initState evs0) :=
  ⟨fun _ => rfl, fun h => absurd rfl h, fun h => by cases h⟩

theorem coordInv_step {evs0 : List ScanEvent} {s t : CoordState}
    (hinv : CoordInv evs0 s) (hstep : CoordStep s t) : CoordInv evs0 t := by
  obtain ⟨h1, h2, h3⟩ := hinv
  cases hstep with
  | scanEnd st p =>
    refine ⟨?_, ?_, ?_⟩
    · intro h
      cases h
    · intro _
      simpa [dispatched] using h1 rfl
    · intro h
      cases h
  | scanEOF r st p =>
    refine ⟨?_, ?_, ?_⟩
    · intro h
      cases h
    · intro _
      simpa [dispatched] using h1 rfl
    · intro h
      cases h
  | scanErr r st p =>
    refine ⟨?_, ?_, ?_⟩
    · intro _
      simpa [dispatched] using h1 rfl
    · intro h
      exact absurd rfl h
    · intro h
      cases h
  | scanQuit r st p =>
    refine ⟨?_, ?_, ?_⟩
    · intro h
      cases h
    · intro _
      simpa [dispatched] using h1 rfl
    · intro h
      cases h
  | scanLine l r st p h =>
    refine ⟨?_, ?_, ?_⟩
    · intro _
      have := h1 rfl
      rw [dispatched, if_neg h] at this
      simpa [List.append_assoc] using this
    · intro h2
      exact absurd rfl h2
    · intro h2
      cases h2
  | taskDone ev st p ph =>
    refine ⟨h1, h2, ?_⟩
    intro h
    exact absurd (h3 h) (Nat.succ_ne_zero p)
  | finishWait ev st =>
    refine ⟨?_, ?_, ?_⟩
    · intro h
      cases h
    · intro _
      exact h2 (by simp)
    · intro _
      rfl

theorem coordInv_reachable {evs0 : List ScanEvent} {s : CoordState}
    (h : Relation.ReflTransGen CoordStep (initState evs0) s) : CoordInv evs0 s := by
  induction h with
  | refl => exact coordInv_init evs0
  | tail _ hstep ih => exact coordInv_step ih hstep

theorem dispatched_until_quit (lines : List String) (rest : List ScanEvent)
    (hq : ∀ l ∈ lines, l ≠ "quit") :
    dispatched (lines.map ScanEvent.line ++ ScanEvent.line "quit" :: rest) = lines := by
  rw [dispatched_lines_front lines _ hq, dispatched, if_pos rfl, List.append_nil]

/-- Claim C4: on an input of N non-sentinel lines, then the quit sentinel,
then anything further, every terminated state the coordinator can reach has
started exactly one fetch task per line before the sentinel, in input
order, none for the sentinel or for later lines, and a zero counter: the
process only terminates once all N tasks completed. -/
theorem coordinator_quit_barrier (lines : List String) (rest : List ScanEvent)
    (s : CoordState)
    (hq : ∀ l ∈ lines, l ≠ "quit")
    (hreach : Relation.ReflTransGen CoordStep
      (initState (lines.map ScanEvent.line ++ ScanEvent.line "quit" :: rest)) s)
    (hterm : s.phase = .terminated) :
    s.started = lines ∧ s.pending = 0 := by
  obtain ⟨-, h2, h3⟩ := coordInv_reachable hreach
  refine ⟨?_, h3 hterm⟩
  rw [h2 (by rw [hterm]; intro h; cases h), dispatched_until_quit lines rest hq]

/-- Witness for claim C4: the input line a, then quit, then one more line;
the traced run dispatches only a, finishes its task, and terminates with a
zero counter. -/
theorem coordinator_quit_barrier_witness :
    (∀ l ∈ ["http://a"], l ≠ "quit")
      ∧ (⟨[ScanEvent.line "http://b"], ["http://a"], 0, .terminated⟩ : CoordState).started
          = ["http://a"]
      ∧ (⟨[ScanEvent.line "http://b"], ["http://a"], 0, .terminated⟩ : CoordState).pending = 0 := by
  refine ⟨by decide, ?_⟩
  have hreach : Relation.ReflTransGen CoordStep
      (initState (["http://a"].map ScanEvent.line
        ++ ScanEvent.line "quit" :: [ScanEvent.line "http://b"]))
      ⟨[ScanEvent.line "http://b"], ["http://a"], 0, .terminated⟩ :=
    Relation.ReflTransGen.head (CoordStep.scanLine "http://a" _ _ _ (by decide))
      (Relation.ReflTransGen.head (CoordStep.taskDone _ _ 0 _)
        (Relation.ReflTransGen.head (CoordStep.scanQuit _ _ _)
          (Relation.ReflTransGen.head (CoordStep.finishWait _ _)
            Relation.ReflTransGen.refl)))
  exact coordinator_quit_barrier ["http://a"] [ScanEvent.line "http://b"] _ (by decide) hreach rfl

/-- A sink registered at startup: an opened append-mode file, or an HTTP
sink holding its target URL (main.go lines 60 to 62 and 188 to 204). -/
inductive SinkDesc where
  | file (path : String)
  | http (sendTo : String)
deriving DecidableEq, Repr

/-- The loop over the comma-separated out-file paths, main.go lines 190 to
197: open each path in append-create mode; on failure log the error and
continue with the next path, on success append the file sink to the
registration list.  openOk tells whether os.OpenFile succeeds on a path.
Returns the sinks registered by this loop, in order, and the number of
open errors logged. -/
def registerFiles (openOk : String → Bool) : List String → List SinkDesc × Nat
  | [] => ([], 0)
  | p :: rest =>
    if openOk p then
      (SinkDesc.file p :: (registerFiles openOk rest).1, (registerFiles openOk rest).2)
    else
      ((registerFiles openOk rest).1, (registerFiles openOk rest).2 + 1)

/-- The state the argument loop accumulates: the global cache flag and the
global sink registration list (main.go lines 48 to 51). -/
structure Config where
  shouldCache : Bool
  outputs : List SinkDesc
deriving DecidableEq, Repr

/-- One iteration of the argument loop of main.go lines 170 to 205: the
argument is lowercased first, matched against the simple flags, and
otherwise split on every equals sign; the out-file and out-url cases take
the SECOND segment only, split it on commas, and register one sink per
piece.  Go indexes exploded[1] unconditionally in both cases, which
panics when the lowercased argument contains no equals sign; the none
result models that crash. -/
def processArg (openOk : String → Bool) (cfg : Config) (nextFlag : String) : Option Config :=
  let flag := goToLower nextFlag
  if flag = "-c" then some { cfg with shouldCache := true }
  else if flag = "-h" then some cfg
  else if flag = "-l" then some cfg
  else if flag = "-v" then some cfg
  else
    let exploded := goSplit '=' flag
    if exploded.headD "" = "--out-file" then
      match exploded[1]? with
      | none => none
      | some e1 =>
        some { cfg with outputs := cfg.outputs ++ (registerFiles openOk (goSplit ',' e1)).1 }
    else if exploded.headD "" = "--out-url" then
      match exploded[1]? with
      | none => none
      | some e1 =>
        some { cfg with outputs := cfg.outputs ++ (goSplit ',' e1).map SinkDesc.http }
    else some cfg

theorem processArg_out_cases (openOk : String → Bool) (cfg : Config) (arg e1 : String)
    (rest : List String) :
    (goSplit '=' (goToLower arg) = "--out-file" :: e1 :: rest →
        processArg openOk cfg arg
          = some { cfg with outputs := cfg.outputs ++ (registerFiles openOk (goSplit ',' e1)).1 })
      ∧ (goSplit '=' (goToLower arg) = "--out-url" :: e1 :: rest →
        processArg openOk cfg arg
          = some { cfg with outputs := cfg.outputs ++ (goSplit ',' e1).map SinkDesc.http }) := by
  constructor <;> intro h
  all_goals
    have hc : goToLower arg ≠ "-c" := by
      intro he
      rw [he] at h
      rw [show goSplit '=' "-c" = ["-c"] from by decide] at h
      simp at h
  all_goals
    have hh : goToLower arg ≠ "-h" := by
      intro he
      rw [he] at h
      rw [show goSplit '=' "-h" = ["-h"] from by decide] at h
      simp at h
  all_goals
    have hl : goToLower arg ≠ "-l" := by
      intro he
      rw [he] at h
      rw [show goSplit '=' "-l" = ["-l"] from by decide] at h
      simp at h
  all_goals
    have hv : goToLower arg ≠ "-v" := by
      intro he
      rw [he] at h
      rw [show goSplit '=' "-v" = ["-v"] from by decide] at h
      simp at h
  all_goals
    simp only [processArg, if_neg hc, if_neg hh, if_neg hl, if_neg hv, h]
  · simp
  · simp

/-- Claim C8: when opening one of the out-file paths fails at startup, the
error is logged, that file sink is never registered, the remaining paths
are still processed in order, and the argument loop goes on without
aborting: a well-formed out-file argument always yields a configuration. -/
theorem outfile_open_failure (openOk : String → Bool) (pre post : List String) (bad : String)
    (hbad : openOk bad = false) (hpre : ∀ p ∈ pre, openOk p = true) :
    (registerFiles openOk (pre ++ bad :: post)).1
        = pre.map SinkDesc.file ++ (registerFiles openOk post).1
      ∧ (registerFiles openOk (pre ++ bad :: post)).2
          = (registerFiles openOk post).2 + 1
      ∧ ∀ (cfg : Config) (arg e1 : String),
          goSplit '=' (goToLower arg) = ["--out-file", e1] →
            processArg openOk cfg arg
              = some { cfg with outputs := cfg.outputs ++ (registerFiles openOk (goSplit ',' e1)).1 } := by
  refine ⟨?_, ?_, ?_⟩
  · induction pre with
    | nil =>
      rw [List.nil_append, registerFiles, if_neg (by rw [hbad]; intro hf; cases hf)]
      rfl
    | cons q rest ih =>
      rw [List.cons_append, registerFiles,
        if_pos (hpre q (List.mem_cons_self q rest)),
        ih (fun t ht => hpre t (List.mem_cons_of_mem q ht))]
      rfl
  · induction pre with
    | nil =>
      rw [List.nil_append, registerFiles, if_neg (by rw [hbad]; intro hf; cases hf)]
    | cons q rest ih =>
      rw [List.cons_append, registerFiles,
        if_pos (hpre q (List.mem_cons_self q rest)),
        ih (fun t ht => hpre t (List.mem_cons_of_mem q ht))]
  · intro cfg arg e1 h
    exact (processArg_out_cases openOk cfg arg e1 []).1 h

/-- Witness for claim C8: paths a, bad, b where only bad fails to open;
a and b are registered in order, one error is logged, and a concrete
out-file argument still produces a configuration. -/
theorem outfile_open_failure_witness :
    (registerFiles (fun p => !(p == "bad")) ["a", "bad", "b"]).1
        = [SinkDesc.file "a", SinkDesc.file "b"]
      ∧ (registerFiles (fun p => !(p == "bad")) ["a", "bad", "b"]).2 = 1 := by
  have h := outfile_open_failure (fun p => !(p == "bad")) ["a"] ["b"] "bad" rfl
    (by decide)
  exact ⟨h.1.trans (by decide), h.2.1.trans (by decide)⟩

/-- Claim C9 counterexample: the argument supplies the URL HTTP://E/X=1,
whose lowercased form is http://e/x=1, but the code registers http://e/x:
the text after the second equals sign of the argument is dropped, so the
registered URL is not the lowercased form of the supplied URL. -/
theorem outurl_lowercase_cex :
    processArg (fun _ => true) { shouldCache := false, outputs := [] } "--out-url=HTTP://E/X=1"
        = some { shouldCache := false, outputs := [SinkDesc.http "http://e/x"] }
      ∧ "http://e/x" ≠ goToLower "HTTP://E/X=1" := by
  constructor
  · decide
  · decide

/-- Claim C9 as amended: every command-line argument is lowercased before
being interpreted, so the paths registered by an out-file argument and the
URLs registered by an out-url argument are taken from the LOWERCASED
argument, never preserving the case the user supplied; precisely, whatever
list of segments the lowercased argument splits into at its equals signs
(one, several, or none after the second), the registered strings are the
comma-separated pieces of the SECOND segment e1 alone, so a supplied path
or URL containing an equals sign is also truncated there, the remaining
segments being dropped. -/
theorem args_lowercased_registration (openOk : String → Bool) (cfg : Config)
    (arg e1 : String) (rest : List String) :
    (goSplit '=' (goToLower arg) = "--out-file" :: e1 :: rest →
        processArg openOk cfg arg
          = some { cfg with outputs := cfg.outputs ++ (registerFiles openOk (goSplit ',' e1)).1 })
      ∧ (goSplit '=' (goToLower arg) = "--out-url" :: e1 :: rest →
        processArg openOk cfg arg
          = some { cfg with outputs := cfg.outputs ++ (goSplit ',' e1).map SinkDesc.http }) :=
  processArg_out_cases openOk cfg arg e1 rest

/-- Witness for the amended claim C9: a mixed-case out-url argument whose
URL part contains a further equals sign; the registered URLs are the
lowercased comma-separated pieces of the second segment only, the text
after the second equals sign being dropped. -/
theorem args_lowercased_registration_witness :
    goSplit '=' (goToLower "--OUT-URL=HTTP://A,HTTP://B?X=1")
        = ["--out-url", "http://a,http://b?x", "1"]
      ∧ processArg (fun _ => true) { shouldCache := false, outputs := [] }
          "--OUT-URL=HTTP://A,HTTP://B?X=1"
        = some { shouldCache := false,
                 outputs := [SinkDesc.http "http://a", SinkDesc.http "http://b?x"] } := by
  refine ⟨by decide, ?_⟩
  have h := (args_lowercased_registration (fun _ => true)
      { shouldCache := false, outputs := [] } "--OUT-URL=HTTP://A,HTTP://B?X=1"
      "http://a,http://b?x" ["1"]).2 (by decide)
  exact h.trans (by decide)

end Pagecrawl
